import Mathlib

/-!
Formal model of the Expense Tracker MCP server (`src/main.py`).

The server stores expense rows in a single SQLite table `expenses` and exposes
five operations: `add_expense`, `list_expenses`, `summarize`, `removal` and
`update_expense`.  This file embeds the table as an explicit list of rows plus
an auto-increment counter, translates each operation's SQL statement into a
pure function on that state, and proves the specified properties.

Modelling conventions:
* SQLite's `REAL` column values are modelled as rationals (`ℚ`); since SQLite
  is dynamically typed, a `TEXT` value can end up in the `amount` column via
  `UPDATE`, so the column is modelled by `AVal` (a real or a text payload).
* Binding a Python string against an `INTEGER`/`REAL`-affinity column makes
  SQLite apply numeric affinity to the text operand: the text converts to a
  number when it is a well-formed numeric literal, otherwise it stays text
  (and then never compares equal to a stored number).  `parseNumeric` models
  this conversion for sign/digits/decimal-point literals.
* `id INTEGER PRIMARY KEY AUTOINCREMENT` is modelled by the counter `seq`:
  the next row id is `seq + 1` and ids are never reused.
-/

namespace ExpenseTracker

/-- A value stored in the `amount` column (`REAL` affinity): either a number
or, because SQLite is dynamically typed, a text payload that did not convert. -/
inductive AVal where
  | real (q : ℚ)
  | text (s : String)
deriving DecidableEq

/-- One row of the `expenses` table (schema from `CREATE_TABLE_SQL`,
main.py lines 26-35). -/
structure Expense where
  id : Nat
  date : String
  amount : AVal
  category : String
  subcategory : String
  note : String
deriving DecidableEq

/-- The database state: the rows of the `expenses` table together with the
`AUTOINCREMENT` sequence counter for the `id` column. -/
structure DB where
  rows : List Expense
  seq : Nat
deriving DecidableEq

/-- The state of a freshly created (empty) `expenses` table. -/
def emptyDB : DB := ⟨[], 0⟩

/-- Well-formedness of a table state: every row id was drawn from the
auto-increment sequence (hence is at most `seq`), and ids are pairwise
distinct (`id` is the primary key). -/
def WF (db : DB) : Prop :=
  (∀ e ∈ db.rows, e.id ≤ db.seq) ∧ (db.rows.map (fun e => e.id)).Nodup

/-- Numeric value of a decimal digit character. -/
def digitVal (c : Char) : Nat := c.toNat - 48

/-- Parse a nonempty all-digit character list as a natural number. -/
def parseNatChars (cs : List Char) : Option Nat :=
  if cs ≠ [] ∧ cs.all Char.isDigit then
    some (cs.foldl (fun a c => 10 * a + digitVal c) 0)
  else none

/-- Parse an unsigned numeric literal: digits with an optional fractional
part after a decimal point. -/
def parseUnsignedChars (cs : List Char) : Option ℚ :=
  let intPart := cs.takeWhile (fun c => c ≠ '.')
  let rest := cs.dropWhile (fun c => c ≠ '.')
  match rest with
  | [] => (parseNatChars intPart).map (fun n => (n : ℚ))
  | _ :: frac =>
    match parseNatChars intPart, parseNatChars frac with
    | some n, some f => some ((n : ℚ) + (f : ℚ) / (10 : ℚ) ^ frac.length)
    | _, _ => none

/-- SQLite numeric affinity applied to a text operand: an optionally signed
decimal literal converts to its numeric value, anything else stays text
(`none`). -/
def parseNumeric (s : String) : Option ℚ :=
  match s.toList with
  | [] => none
  | c :: rest =>
    if c = '-' then (parseUnsignedChars rest).map (fun q => -q)
    else if c = '+' then parseUnsignedChars rest
    else parseUnsignedChars (c :: rest)

/-- Numeric reading of an `amount` value, as used by `SUM(amount)`: SQLite
sums the numeric interpretation of each value, taking non-numeric text as 0. -/
def amountNum : AVal → ℚ
  | .real q => q
  | .text s => (parseNumeric s).getD 0

/-- Result envelope of `add_expense` (main.py lines 71-90). -/
inductive AddOut where
  | success (id : Nat)
  | error (message : String)
deriving DecidableEq

/-- Result envelope of `removal` (main.py lines 145-162). -/
inductive RemOut where
  | success (deleted : Nat)
  | error (message : String)
deriving DecidableEq

/-- Result envelope of `update_expense` (main.py lines 165-180). -/
inductive UpdOut where
  | success (updated : Nat)
  | error (message : String)
deriving DecidableEq

/-- Embeds `add_expense` (main.py lines 71-90): `INSERT INTO expenses(date,
amount, category, subcategory, note) VALUES (?,?,?,?,?)` followed by a commit;
returns the fresh `lastrowid`.  The `amount` parameter is a Python float,
stored as a number. -/
def add_expense (db : DB) (date : String) (amount : ℚ) (category : String)
    (subcategory : String) (note : String) : AddOut × DB :=
  let newId := db.seq + 1
  (AddOut.success newId,
    ⟨db.rows ++ [⟨newId, date, AVal.real amount, category, subcategory, note⟩], newId⟩)

/-- Lexicographic (bytewise, as in SQLite's `BINARY` collation) strict order
on character lists; UTF-8 byte order coincides with codepoint order. -/
def charsLt : List Char → List Char → Bool
  | [], [] => false
  | [], _ :: _ => true
  | _ :: _, [] => false
  | a :: as, b :: bs => if a < b then true else if a = b then charsLt as bs else false

/-- Strict lexicographic order on strings (SQLite `TEXT` comparison). -/
def strLtB (a b : String) : Bool := charsLt a.data b.data

/-- Lexicographic order-or-equal on strings. -/
def strLeB (a b : String) : Bool := !strLtB b a

/-- Date-range test of `WHERE date BETWEEN ? AND ?`: SQLite `BETWEEN` is the
inclusive closed range, and `TEXT` values compare bytewise. -/
def inRangeB (start_date end_date : String) (r : Expense) : Bool :=
  strLeB start_date r.date && strLeB r.date end_date

/-- Output order of `list_expenses`: `ORDER BY date DESC, id DESC`.
`ordExp a b` says `a` may appear before `b`. -/
def ordExp (a b : Expense) : Prop :=
  strLtB b.date a.date = true ∨ (b.date = a.date ∧ b.id ≤ a.id)

instance : DecidableRel ordExp := fun a b => by unfold ordExp; exact inferInstance

/-- Embeds `list_expenses` (main.py lines 93-115): select the rows whose date
is in the inclusive range, order by date descending then id descending, and
apply `LIMIT ?`.  SQLite treats a negative `LIMIT` as "no limit". -/
def list_expenses (db : DB) (start_date end_date : String) (limit : Int) :
    List Expense :=
  if limit < 0 then
    List.insertionSort ordExp (db.rows.filter (inRangeB start_date end_date))
  else
    (List.insertionSort ordExp (db.rows.filter (inRangeB start_date end_date))).take limit.toNat

/-- One output row of `summarize`: `SELECT category, SUM(amount) AS
total_amount, COUNT(*) AS count`. -/
structure Group where
  category : String
  total_amount : ℚ
  count : Nat
deriving DecidableEq

/-- The aggregate row produced by `GROUP BY category` for the group labelled
`c` over the selected rows `l`. -/
def groupFor (l : List Expense) (c : String) : Group :=
  let sel := l.filter (fun r => decide (r.category = c))
  ⟨c, (sel.map (fun r => amountNum r.amount)).sum, sel.length⟩

/-- Output order of `summarize`: `ORDER BY total_amount DESC`. -/
def ordGrp (a b : Group) : Prop := b.total_amount ≤ a.total_amount

instance : DecidableRel ordGrp := fun a b => by unfold ordGrp; exact inferInstance

/-- Embeds the optional category filter of `summarize` (main.py lines
130-133): the extra `AND category = ?` clause is appended only when the
Python value `category` is truthy, i.e. not `None` and not the empty
string (`if category:`). -/
def applyCatFilter (category : Option String) (l : List Expense) : List Expense :=
  match category with
  | none => l
  | some c => if c = "" then l else l.filter (fun r => decide (r.category = c))

/-- The `SELECT category, SUM(amount), COUNT(*) ... GROUP BY category ORDER
BY total_amount DESC` part of `summarize`, applied to the already-selected
rows `l`: one group per distinct category value, sorted by total
descending. -/
def summarizeRows (l : List Expense) : List Group :=
  List.insertionSort ordGrp (((l.map (fun r => r.category)).dedup).map (groupFor l))

/-- Embeds `summarize` (main.py lines 118-142): group the rows of the
inclusive date range (optionally restricted to one category) by category,
emit `(category, SUM(amount), COUNT(*))` per group, ordered by total
descending. -/
def summarize (db : DB) (start_date end_date : String) (category : Option String) :
    List Group :=
  summarizeRows (applyCatFilter category (db.rows.filter (inRangeB start_date end_date)))

/-- The allow-list of `removal` (main.py line 151). -/
def allowedRemoveFields : List String := ["id", "category", "date", "amount"]

/-- The validation-error message of `removal` (main.py line 153):
`f"Invalid field. Allowed: \x7bsorted(allowed)\x7d"`. -/
def removalInvalidMsg : String :=
  "Invalid field. Allowed: ['amount', 'category', 'date', 'id']"

/-- Row test of `DELETE FROM expenses WHERE <field> = ?` with the text
parameter `value`: for the `INTEGER`/`REAL`-affinity columns `id` and
`amount`, numeric affinity is applied to `value` first; for the `TEXT`
columns `date` and `category` the comparison is plain string equality. -/
def matchesField (field value : String) (e : Expense) : Bool :=
  if field = "id" then
    match parseNumeric value with
    | some q => decide ((e.id : ℚ) = q)
    | none => false
  else if field = "date" then decide (e.date = value)
  else if field = "category" then decide (e.category = value)
  else if field = "amount" then
    match parseNumeric value, e.amount with
    | some q, AVal.real r => decide (r = q)
    | some _, AVal.text _ => false
    | none, AVal.real _ => false
    | none, AVal.text s => decide (s = value)
  else false

/-- Embeds `removal` (main.py lines 145-162): reject a field outside the
allow-list before any statement runs; otherwise run `DELETE FROM expenses
WHERE <field> = ?`, commit, and return the deleted row count. -/
def removal (db : DB) (field value : String) : RemOut × DB :=
  if field ∈ allowedRemoveFields then
    (RemOut.success (db.rows.countP (fun e => matchesField field value e)),
      ⟨db.rows.filter (fun e => !matchesField field value e), db.seq⟩)
  else (RemOut.error removalInvalidMsg, db)

/-- The allow-list of `update_expense` (main.py line 170). -/
def allowedUpdateFields : List String :=
  ["date", "category", "amount", "subcategory", "note"]

/-- The validation-error message of `update_expense` (main.py line 172). -/
def updateInvalidMsg : String :=
  "Invalid field. Allowed: ['amount', 'category', 'date', 'note', 'subcategory']"

/-- Writing the text parameter `new_value` into a column: the `REAL`-affinity
column `amount` applies numeric affinity (numeric-looking text is stored as a
number, other text is stored as text); the `TEXT` columns store it as is. -/
def applyRealAffinity (v : String) : AVal :=
  match parseNumeric v with
  | some q => AVal.real q
  | none => AVal.text v

/-- The effect of `UPDATE expenses SET <field> = ?` on one row. -/
def setField (e : Expense) (field v : String) : Expense :=
  if field = "date" then { e with date := v }
  else if field = "category" then { e with category := v }
  else if field = "amount" then { e with amount := applyRealAffinity v }
  else if field = "subcategory" then { e with subcategory := v }
  else if field = "note" then { e with note := v }
  else e

/-- Embeds `update_expense` (main.py lines 165-180): reject a field outside
the allow-list before any statement runs; otherwise run `UPDATE expenses SET
<field> = ? WHERE id = ?`, commit, and return the updated row count. -/
def update_expense (db : DB) (id : Int) (field new_value : String) : UpdOut × DB :=
  if field ∈ allowedUpdateFields then
    (UpdOut.success (db.rows.countP (fun e => decide ((e.id : Int) = id))),
      ⟨db.rows.map (fun e => if (e.id : Int) = id then setField e field new_value else e),
        db.seq⟩)
  else (UpdOut.error updateInvalidMsg, db)

/-- Substring test, modelling Python's `in` on strings: `pat` occurs as a
prefix of some suffix of `s`. -/
def strContains (s pat : String) : Bool :=
  (s.toList.tails).any (fun t => pat.toList.isPrefixOf t)

/-- ASCII lower-casing of one character, as `str.lower` acts on the ASCII
range (the storage-engine messages being matched are ASCII). -/
def lowerChar (c : Char) : Char :=
  if 65 ≤ c.toNat ∧ c.toNat ≤ 90 then Char.ofNat (c.toNat + 32) else c

/-- ASCII lower-casing of a string, modelling Python's `msg.lower()`. -/
def asciiLower (s : String) : String := ⟨s.data.map lowerChar⟩

/-- The read-only detection of `add_expense` (main.py line 88):
`"readonly" in msg.lower() or "attempt to write a readonly database" in
msg.lower()`. -/
def readonlyCheck (msg : String) : Bool :=
  strContains (asciiLower msg) "readonly" ||
    strContains (asciiLower msg) "attempt to write a readonly database"

/-- The stable read-only error message of `add_expense` (main.py line 89). -/
def readonlyMessage : String := "Database is read-only in this environment."

/-- The `except` branch of `add_expense` (main.py lines 86-90), applied to the
stringified storage exception `msg`. -/
def addExceptionEnvelope (msg : String) : AddOut :=
  if readonlyCheck msg then AddOut.error readonlyMessage
  else AddOut.error ("Database error: " ++ msg)

/-- The `except` branch of `removal` (main.py lines 161-162). -/
def removalExceptionEnvelope (msg : String) : RemOut :=
  RemOut.error ("Error deleting expenses: " ++ msg)

/-- The `except` branch of `update_expense` (main.py lines 179-180). -/
def updateExceptionEnvelope (msg : String) : UpdOut :=
  UpdOut.error ("Error updating expense: " ++ msg)

/-- Local state of one task executing `get_db` (main.py lines 37-67) in the
cooperative (asyncio) execution model.  `pc` points at the next suspension
point; `sawSchemaDone` records whether the schema-ensure statement had
completed when the task returned its handle. -/
structure TaskSt where
  pc : Nat
  returned : Bool
  sawSchemaDone : Bool
deriving DecidableEq

/-- Shared state of the `get_db` module: whether the global `_db_conn` has
been assigned (line 53), whether the `CREATE TABLE` statement has run
(line 64), and whether `_db_lock` is held, plus two tasks racing through
`get_db`. -/
structure GetDbSys where
  connAssigned : Bool
  schemaDone : Bool
  lockHeld : Bool
  t1 : TaskSt
  t2 : TaskSt
deriving DecidableEq

/-- One scheduler slice of a task inside `get_db`, between suspension points:
pc 0 is the unguarded fast-path check `if _db_conn is not None` (line 44);
pc 1 acquires `_db_lock` (line 47, blocks while held); pc 2 is the re-check
under the lock (line 48); pc 3 completes `_db_conn = await aiosqlite.connect`
(line 53, the global is assigned here); pc 4 runs the pragmas (lines 55-61);
pc 5 runs the schema-ensure `CREATE TABLE` (line 64); pc 6 commits, releases
the lock and returns (lines 65-67). -/
def stepGet (g : GetDbSys) (t : TaskSt) : TaskSt × GetDbSys :=
  if t.returned then (t, g)
  else if t.pc = 0 then
    if g.connAssigned then ({ t with returned := true, sawSchemaDone := g.schemaDone }, g)
    else ({ t with pc := 1 }, g)
  else if t.pc = 1 then
    if g.lockHeld then (t, g)
    else ({ t with pc := 2 }, { g with lockHeld := true })
  else if t.pc = 2 then
    if g.connAssigned then
      ({ t with returned := true, sawSchemaDone := g.schemaDone }, { g with lockHeld := false })
    else ({ t with pc := 3 }, g)
  else if t.pc = 3 then ({ t with pc := 4 }, { g with connAssigned := true })
  else if t.pc = 4 then ({ t with pc := 5 }, g)
  else if t.pc = 5 then ({ t with pc := 6 }, { g with schemaDone := true })
  else ({ t with returned := true, sawSchemaDone := g.schemaDone }, { g with lockHeld := false })

/-- Run one scheduler slice of task 1 (`true`) or task 2 (`false`). -/
def schedStep (g : GetDbSys) (who : Bool) : GetDbSys :=
  if who then
    let p := stepGet g g.t1
    { p.2 with t1 := p.1 }
  else
    let p := stepGet g g.t2
    { p.2 with t2 := p.1 }

/-- Initial state: module just imported, both tasks about to call `get_db`. -/
def initSys : GetDbSys := ⟨false, false, false, ⟨0, false, false⟩, ⟨0, false, false⟩⟩

/-- Run `get_db` under a given interleaving of the two tasks. -/
def runSched (sched : List Bool) : GetDbSys := sched.foldl schedStep initSys

/-- Decimal digit characters of `n`, most significant first; this is the
specification-level counterpart of `Nat.toDigitsCore`. -/
def natDigits (n : Nat) : List Char :=
  if n < 10 then [Nat.digitChar n]
  else natDigits (n / 10) ++ [Nat.digitChar (n % 10)]
decreasing_by exact Nat.div_lt_self (by omega) (by omega)

/-- Sample row used to instantiate witness statements. -/
def sampleA : Expense := ⟨1, "2025-01-01", AVal.real 10, "Food", "", ""⟩

/-- Sample row used to instantiate witness statements. -/
def sampleB : Expense := ⟨2, "2025-02-01", AVal.real 5, "Travel", "", ""⟩

/-- Sample row used to instantiate witness statements. -/
def sampleC : Expense := ⟨3, "2025-02-01", AVal.real 7, "Food", "", ""⟩

/-- Sample table state used to instantiate witness statements. -/
def sampleDB : DB := ⟨[sampleA, sampleB, sampleC], 3⟩

/-- Input record of one `add_expense` call (the tool's five parameters). -/
structure CInput where
  date : String
  amount : ℚ
  category : String
  subcategory : String
  note : String

/-- Run `add_expense` once per input, returning the final state and the list
of ids reported in the success envelopes. -/
def createMany : DB → List CInput → DB × List Nat
  | db, [] => (db, [])
  | db, i :: rest =>
    let p := add_expense db i.date i.amount i.category i.subcategory i.note
    let q := createMany p.2 rest
    (q.1, (db.seq + 1) :: q.2)

/-- Call `removal "id" (toString i)` once for each id in the list. -/
def removeIds (db : DB) (ids : List Nat) : DB :=
  ids.foldl (fun d i => (removal d "id" (toString i)).2) db

theorem digitChar_isDigit : ∀ d : Nat, d < 10 → (Nat.digitChar d).isDigit = true := by
  decide

theorem digitVal_digitChar : ∀ d : Nat, d < 10 → digitVal (Nat.digitChar d) = d := by
  decide

theorem natDigits_all_digits (n : Nat) : ∀ c ∈ natDigits n, c.isDigit = true := by
  induction n using Nat.strong_induction_on with
  | _ n ih =>
    intro c hc
    by_cases h : n < 10
    · rw [natDigits, if_pos h] at hc
      simp only [List.mem_singleton] at hc
      exact hc ▸ digitChar_isDigit n h
    · rw [natDigits, if_neg h] at hc
      rcases List.mem_append.mp hc with h1 | h2
      · exact ih (n / 10) (Nat.div_lt_self (by omega) (by omega)) c h1
      · simp only [List.mem_singleton] at h2
        exact h2 ▸ digitChar_isDigit (n % 10) (Nat.mod_lt n (by omega))

theorem natDigits_ne_nil (n : Nat) : natDigits n ≠ [] := by
  by_cases h : n < 10
  · rw [natDigits, if_pos h]; simp
  · rw [natDigits, if_neg h]; simp

theorem foldl_natDigits (n : Nat) : ∀ a : Nat,
    (natDigits n).foldl (fun x c => 10 * x + digitVal c) a =
      a * 10 ^ (natDigits n).length + n := by
  induction n using Nat.strong_induction_on with
  | _ n ih =>
    intro a
    by_cases h : n < 10
    · rw [natDigits, if_pos h]
      simp [digitVal_digitChar n h, Nat.mul_comm]
    · rw [natDigits, if_neg h]
      rw [List.foldl_append, ih (n / 10) (Nat.div_lt_self (by omega) (by omega)) a]
      have hmod : digitVal (Nat.digitChar (n % 10)) = n % 10 :=
        digitVal_digitChar (n % 10) (Nat.mod_lt n (by omega))
      have hpow : 10 ^ ((natDigits (n / 10)).length + 1) =
          10 ^ (natDigits (n / 10)).length * 10 := pow_succ 10 _
      have hdm : 10 * (n / 10) + n % 10 = n := Nat.div_add_mod n 10
      simp only [List.foldl_cons, List.foldl_nil, List.length_append,
        List.length_singleton, hmod, hpow]
      ring_nf
      omega

theorem parseNatChars_natDigits (n : Nat) : parseNatChars (natDigits n) = some n := by
  unfold parseNatChars
  rw [if_pos]
  · rw [foldl_natDigits n 0]; simp
  · constructor
    · exact natDigits_ne_nil n
    · exact List.all_eq_true.mpr (natDigits_all_digits n)

theorem toDigitsCore_eq : ∀ (fuel n : Nat) (acc : List Char), n < fuel →
    Nat.toDigitsCore 10 fuel n acc = natDigits n ++ acc := by
  intro fuel
  induction fuel with
  | zero => intro n acc h; omega
  | succ f ih =>
    intro n acc h
    rw [Nat.toDigitsCore]
    by_cases h10 : n / 10 = 0
    · rw [if_pos h10, natDigits, if_pos (by omega), Nat.mod_eq_of_lt (by omega)]
      simp
    · rw [if_neg h10]
      have hn : 10 ≤ n := by
        by_contra hlt
        exact h10 (Nat.div_eq_of_lt (by omega))
      have hdiv : n / 10 < n := Nat.div_lt_self (by omega) (by omega)
      have h9 : ¬n < 10 := by omega
      rw [ih (n / 10) _ (by omega)]
      conv_rhs => rw [natDigits, if_neg h9]
      simp

theorem repr_eq_natDigits (n : Nat) : Nat.repr n = String.mk (natDigits n) := by
  show (Nat.toDigits 10 n).asString = String.mk (natDigits n)
  rw [Nat.toDigits, toDigitsCore_eq (n + 1) n [] (by omega)]
  simp [List.asString]

theorem digit_ne_dot (c : Char) (h : c.isDigit = true) : c ≠ '.' := by
  intro he; rw [he] at h; exact absurd h (by decide)

theorem digit_ne_minus (c : Char) (h : c.isDigit = true) : c ≠ '-' := by
  intro he; rw [he] at h; exact absurd h (by decide)

theorem digit_ne_plus (c : Char) (h : c.isDigit = true) : c ≠ '+' := by
  intro he; rw [he] at h; exact absurd h (by decide)

theorem takeWhile_eq_self_of_all {α : Type} (p : α → Bool) (l : List α)
    (h : ∀ a ∈ l, p a = true) : l.takeWhile p = l := by
  induction l with
  | nil => rfl
  | cons a t ih =>
    rw [List.takeWhile_cons_of_pos (h a (by simp))]
    rw [ih (fun b hb => h b (by simp [hb]))]

theorem dropWhile_eq_nil_of_all {α : Type} (p : α → Bool) (l : List α)
    (h : ∀ a ∈ l, p a = true) : l.dropWhile p = [] := by
  induction l with
  | nil => rfl
  | cons a t ih =>
    rw [List.dropWhile_cons_of_pos (h a (by simp))]
    exact ih (fun b hb => h b (by simp [hb]))

theorem parseUnsignedChars_natDigits (n : Nat) :
    parseUnsignedChars (natDigits n) = some (n : ℚ) := by
  have hall : ∀ c ∈ natDigits n, (fun c => decide (c ≠ '.')) c = true := by
    intro c hc
    exact decide_eq_true (digit_ne_dot c (natDigits_all_digits n c hc))
  unfold parseUnsignedChars
  rw [takeWhile_eq_self_of_all _ _ hall, dropWhile_eq_nil_of_all _ _ hall]
  simp [parseNatChars_natDigits n]

theorem parseNumeric_toString (n : Nat) : parseNumeric (toString n) = some (n : ℚ) := by
  have hts : (toString n : String) = String.mk (natDigits n) := repr_eq_natDigits n
  rw [hts]
  obtain ⟨c, rest, hcons⟩ := List.exists_cons_of_ne_nil (natDigits_ne_nil n)
  have hc : c.isDigit = true :=
    natDigits_all_digits n c (by rw [hcons]; exact List.mem_cons_self c rest)
  show parseNumeric ⟨natDigits n⟩ = some (n : ℚ)
  unfold parseNumeric
  show (match natDigits n with
    | [] => none
    | c :: rest =>
      if c = '-' then (parseUnsignedChars rest).map (fun q => -q)
      else if c = '+' then parseUnsignedChars rest
      else parseUnsignedChars (c :: rest)) = some (n : ℚ)
  rw [hcons]
  simp only [if_neg (digit_ne_minus c hc), if_neg (digit_ne_plus c hc)]
  rw [← hcons]
  exact parseUnsignedChars_natDigits n

theorem matchesField_id_toString (i : Nat) (e : Expense) :
    matchesField "id" (toString i) e = decide (e.id = i) := by
  unfold matchesField
  rw [if_pos rfl, parseNumeric_toString i]
  exact decide_eq_decide.mpr Nat.cast_inj

theorem charsLt_iff : ∀ as bs : List Char, charsLt as bs = true ↔ List.Lex (· < ·) as bs := by
  intro as
  induction as with
  | nil =>
    intro bs
    cases bs with
    | nil => exact iff_of_false (by simp [charsLt]) (fun h => by cases h)
    | cons b bs => exact iff_of_true (by simp [charsLt]) List.Lex.nil
  | cons a as ih =>
    intro bs
    cases bs with
    | nil => exact iff_of_false (by simp [charsLt]) (fun h => by cases h)
    | cons b bs =>
      by_cases hlt : a < b
      · exact iff_of_true (by simp [charsLt, hlt]) (List.Lex.rel hlt)
      · by_cases heq : a = b
        · subst heq
          constructor
          · intro h
            have h2 : charsLt as bs = true := by simpa [charsLt, hlt] using h
            exact List.Lex.cons ((ih bs).mp h2)
          · intro h
            have h2 : List.Lex (· < ·) as bs := by
              cases h with
              | cons h2 => exact h2
              | rel h2 => exact absurd h2 hlt
            simpa [charsLt, hlt] using (ih bs).mpr h2
        · refine iff_of_false (by simp [charsLt, hlt, heq]) (fun h => ?_)
          cases h with
          | cons h2 => exact heq rfl
          | rel h2 => exact hlt h2

theorem strLtB_iff (a b : String) : strLtB a b = true ↔ a < b := by
  rw [String.lt_iff_toList_lt]
  exact charsLt_iff a.data b.data

theorem strLeB_iff (a b : String) : strLeB a b = true ↔ a ≤ b := by
  have h := strLtB_iff b a
  unfold strLeB
  constructor
  · intro hle
    refine not_lt.mp (fun hc => ?_)
    rw [h.mpr hc] at hle
    exact absurd hle (by simp)
  · intro hle
    have h2 : ¬strLtB b a = true := fun hc => absurd (h.mp hc) (not_lt.mpr hle)
    simp [Bool.not_eq_true] at h2
    simp [h2]

theorem ordExp_iff (a b : Expense) :
    ordExp a b ↔ (b.date < a.date ∨ (b.date = a.date ∧ b.id ≤ a.id)) := by
  unfold ordExp
  rw [strLtB_iff]

instance : IsTotal Expense ordExp := ⟨by
  intro a b
  rw [ordExp_iff, ordExp_iff]
  rcases lt_trichotomy a.date b.date with h | h | h
  · exact Or.inr (Or.inl h)
  · rcases Nat.le_total b.id a.id with hid | hid
    · exact Or.inl (Or.inr ⟨h.symm, hid⟩)
    · exact Or.inr (Or.inr ⟨h, hid⟩)
  · exact Or.inl (Or.inl h)⟩

instance : IsTrans Expense ordExp := ⟨by
  intro a b c hab hbc
  rw [ordExp_iff] at hab hbc ⊢
  rcases hab with h1 | ⟨h1e, h1i⟩ <;> rcases hbc with h2 | ⟨h2e, h2i⟩
  · exact Or.inl (h2.trans h1)
  · exact Or.inl (by rw [h2e]; exact h1)
  · exact Or.inl (by rw [← h1e]; exact h2)
  · exact Or.inr ⟨h2e.trans h1e, h2i.trans h1i⟩⟩

instance : IsTotal Group ordGrp := ⟨fun a b => le_total b.total_amount a.total_amount⟩

instance : IsTrans Group ordGrp := ⟨fun _ _ _ hab hbc => le_trans hbc hab⟩

/-- C1: `removal` rejects any field outside `\x7bid, category, date, amount\x7d`
with a validation-error envelope and leaves the store untouched; with an
allow-listed field matching no row it returns a success envelope with deleted
count 0 and the store is again untouched. -/
theorem removal_validation (db : DB) (field value : String) :
    (field ∉ allowedRemoveFields →
      removal db field value = (RemOut.error removalInvalidMsg, db)) ∧
    (field ∈ allowedRemoveFields →
      (∀ r ∈ db.rows, matchesField field value r = false) →
      removal db field value = (RemOut.success 0, db)) := by
  constructor
  · intro hf
    unfold removal
    rw [if_neg hf]
  · intro hf hnone
    unfold removal
    rw [if_pos hf]
    have hcount : db.rows.countP (fun r => matchesField field value r) = 0 :=
      List.countP_eq_zero.mpr (by intro r hr; simp [hnone r hr])
    have hfilter : db.rows.filter (fun r => !matchesField field value r) = db.rows :=
      List.filter_eq_self.mpr (by intro r hr; simp [hnone r hr])
    rw [hcount, hfilter]

/-- Witness for C1 at a field outside the allow-list and at an allow-listed
field matching no stored row. -/
theorem removal_validation_witness :
    ("color" ∉ allowedRemoveFields ∧
      removal sampleDB "color" "x" = (RemOut.error removalInvalidMsg, sampleDB)) ∧
    ("category" ∈ allowedRemoveFields ∧
      removal sampleDB "category" "Nope" = (RemOut.success 0, sampleDB)) :=
  ⟨⟨by decide, (removal_validation sampleDB "color" "x").1 (by decide)⟩,
   ⟨by decide, (removal_validation sampleDB "category" "Nope").2 (by decide) (by decide)⟩⟩

/-- C2: `update_expense` rejects `id` (not in its allow-list) and any other
field outside `\x7bdate, category, amount, subcategory, note\x7d` with a
validation-error envelope, leaving the store untouched. -/
theorem update_validation (db : DB) (id : Int) (field new_value : String) :
    ("id" ∉ allowedUpdateFields) ∧
    (field ∉ allowedUpdateFields →
      update_expense db id field new_value = (UpdOut.error updateInvalidMsg, db)) := by
  constructor
  · decide
  · intro hf
    unfold update_expense
    rw [if_neg hf]

/-- Witness for C2 at `field = "id"` on a concrete store. -/
theorem update_validation_witness :
    update_expense sampleDB 1 "id" "9" = (UpdOut.error updateInvalidMsg, sampleDB) :=
  (update_validation sampleDB 1 "id" "9").2 (by decide)

/-- C10: because the filter clause is appended only under Python truthiness
(`if category:`), `summarize` with the empty-string category behaves exactly
like `summarize` with no category filter. -/
theorem summarize_empty_category_eq_unfiltered (db : DB) (start_date end_date : String) :
    summarize db start_date end_date (some "") = summarize db start_date end_date none :=
  rfl

/-- C8 counterexample: on the SQLite read-only message, `removal` and
`update_expense` return the generic stringified-exception envelope (which
embeds the underlying store's wording) instead of the stable read-only
message that `add_expense` returns. -/
theorem readonly_not_special_cased_counterexample :
    removalExceptionEnvelope "attempt to write a readonly database" =
      RemOut.error "Error deleting expenses: attempt to write a readonly database" ∧
    removalExceptionEnvelope "attempt to write a readonly database" ≠
      RemOut.error readonlyMessage ∧
    updateExceptionEnvelope "attempt to write a readonly database" =
      UpdOut.error "Error updating expense: attempt to write a readonly database" ∧
    updateExceptionEnvelope "attempt to write a readonly database" ≠
      UpdOut.error readonlyMessage ∧
    addExceptionEnvelope "attempt to write a readonly database" =
      AddOut.error readonlyMessage := by
  refine ⟨rfl, by decide, rfl, by decide, by decide⟩

/-- C8 amended: only `add_expense` special-cases a read-only storage failure
into the stable message; `removal` and `update_expense` always return the
generic stringified-exception envelope built from the store's wording. -/
theorem readonly_special_case_create_only (msg : String) :
    (readonlyCheck msg = true →
      addExceptionEnvelope msg = AddOut.error readonlyMessage) ∧
    removalExceptionEnvelope msg = RemOut.error ("Error deleting expenses: " ++ msg) ∧
    updateExceptionEnvelope msg = UpdOut.error ("Error updating expense: " ++ msg) := by
  refine ⟨?_, rfl, rfl⟩
  intro h
  unfold addExceptionEnvelope
  rw [if_pos h]

/-- Witness for the amended C8 at the concrete SQLite read-only message. -/
theorem readonly_special_case_create_only_witness :
    readonlyCheck "attempt to write a readonly database" = true ∧
    addExceptionEnvelope "attempt to write a readonly database" =
      AddOut.error readonlyMessage ∧
    removalExceptionEnvelope "attempt to write a readonly database" =
      RemOut.error ("Error deleting expenses: " ++ "attempt to write a readonly database") :=
  ⟨by decide,
   (readonly_special_case_create_only "attempt to write a readonly database").1 (by decide),
   (readonly_special_case_create_only "attempt to write a readonly database").2.1⟩

/-- C9: a concrete cooperative interleaving of two first callers of `get_db`
in which task 1 assigns the global `_db_conn` (line 53) and is then suspended
at the next `await`, whereupon task 2's fast-path check (line 44) returns the
shared handle before the schema-ensure statement (line 64) has run: the
second caller neither performs initialization nor observes a fully
initialized handle. -/
theorem get_db_partial_init_trace :
    (runSched [true, true, true, true, false]).t2.returned = true ∧
    (runSched [true, true, true, true, false]).schemaDone = false ∧
    (runSched [true, true, true, true, false]).t2.sawSchemaDone = false := by
  decide

/-- C3 counterexample: with a negative limit, SQLite's `LIMIT` applies no cap,
so `list_expenses` can return more than `limit` rows. -/
theorem list_expenses_negative_limit_counterexample :
    (list_expenses sampleDB "2025-01-01" "2025-02-01" (-1)).length = 3 ∧
    ¬(((list_expenses sampleDB "2025-01-01" "2025-02-01" (-1)).length : Int) ≤ -1) := by
  decide

/-- C3 amended: every returned row's date lies in the inclusive range under
lexicographic string comparison and the output is ordered by date descending
then id descending; the row count is capped at `limit` whenever
`limit ≥ 0`, while a negative limit disables the cap (SQLite `LIMIT`
semantics), returning every in-range row. -/
theorem list_expenses_spec (db : DB) (start_date end_date : String) (limit : Int) :
    (∀ r ∈ list_expenses db start_date end_date limit,
        start_date ≤ r.date ∧ r.date ≤ end_date) ∧
    (list_expenses db start_date end_date limit).Pairwise
      (fun a b => b.date < a.date ∨ (b.date = a.date ∧ b.id ≤ a.id)) ∧
    (0 ≤ limit → ((list_expenses db start_date end_date limit).length : Int) ≤ limit) ∧
    (limit < 0 → ∀ r ∈ db.rows, inRangeB start_date end_date r = true →
        r ∈ list_expenses db start_date end_date limit) := by
  have hrange : ∀ r ∈ db.rows.filter (inRangeB start_date end_date),
      start_date ≤ r.date ∧ r.date ≤ end_date := by
    intro r hr
    have hb := List.of_mem_filter hr
    unfold inRangeB at hb
    rw [Bool.and_eq_true] at hb
    exact ⟨(strLeB_iff _ _).mp hb.1, (strLeB_iff _ _).mp hb.2⟩
  have hsorted := List.sorted_insertionSort ordExp (db.rows.filter (inRangeB start_date end_date))
  have hsub : list_expenses db start_date end_date limit ⊆
      List.insertionSort ordExp (db.rows.filter (inRangeB start_date end_date)) := by
    unfold list_expenses
    split
    · exact fun a ha => ha
    · exact List.take_subset _ _
  have hsl : List.Sublist (list_expenses db start_date end_date limit)
      (List.insertionSort ordExp (db.rows.filter (inRangeB start_date end_date))) := by
    unfold list_expenses
    split
    · exact List.Sublist.refl _
    · exact List.take_sublist _ _
  refine ⟨?_, ?_, ?_, ?_⟩
  · intro r hr
    exact hrange r ((List.perm_insertionSort ordExp _).mem_iff.mp (hsub hr))
  · exact (hsorted.sublist hsl).imp (fun h => (ordExp_iff _ _).mp h)
  · intro h0
    have hnneg : ¬limit < 0 := not_lt.mpr h0
    unfold list_expenses
    rw [if_neg hnneg]
    have h1 : (List.take limit.toNat
        (List.insertionSort ordExp (db.rows.filter (inRangeB start_date end_date)))).length ≤
          limit.toNat := by
      rw [List.length_take]
      exact min_le_left _ _
    omega
  · intro hneg r hr hb
    unfold list_expenses
    rw [if_pos hneg]
    exact (List.perm_insertionSort ordExp _).mem_iff.mpr (List.mem_filter.mpr ⟨hr, hb⟩)

/-- Witness for C3 (amended) on a concrete store and nonnegative limit. -/
theorem list_expenses_spec_witness :
    ((list_expenses sampleDB "2025-01-01" "2025-02-01" 2).length : Int) ≤ 2 :=
  (list_expenses_spec sampleDB "2025-01-01" "2025-02-01" 2).2.2.1 (by decide)

theorem countP_id_eq_one (l : List Expense) (id : Int)
    (hnd : (l.map (fun e => e.id)).Nodup)
    (hex : ∃ e ∈ l, (e.id : Int) = id) :
    l.countP (fun e => decide ((e.id : Int) = id)) = 1 := by
  induction l with
  | nil => simp at hex
  | cons a t ih =>
    rw [List.map_cons, List.nodup_cons] at hnd
    rw [List.countP_cons]
    by_cases hp : (a.id : Int) = id
    · have ht : t.countP (fun e => decide ((e.id : Int) = id)) = 0 := by
        apply List.countP_eq_zero.mpr
        intro b hb
        simp only [decide_eq_true_eq]
        intro hbid
        have hba : b.id = a.id := by
          have h2 := hbid.trans hp.symm
          exact_mod_cast h2
        have hmem : a.id ∈ t.map (fun e => e.id) := by
          rw [← hba]
          exact List.mem_map_of_mem (fun e => e.id) hb
        exact hnd.1 hmem
      simp [ht, hp]
    · have hex2 : ∃ e ∈ t, (e.id : Int) = id := by
        rcases hex with ⟨e, he, heid⟩
        rcases List.mem_cons.mp he with rfl | ht2
        · exact absurd heid hp
        · exact ⟨e, ht2, heid⟩
      rw [ih hnd.2 hex2]
      simp [hp]

theorem countP_id_eq_zero (l : List Expense) (id : Int)
    (hnone : ¬∃ e ∈ l, (e.id : Int) = id) :
    l.countP (fun e => decide ((e.id : Int) = id)) = 0 :=
  List.countP_eq_zero.mpr (by
    intro e he
    simp only [decide_eq_true_eq]
    exact fun h => hnone ⟨e, he, h⟩)

/-- C5: a valid `update_expense` on a well-formed store maps exactly the row
with the given id through `setField` (which changes only the named column)
and leaves every other row unchanged; the success envelope reports 1 updated
row when the id is present and 0 when it is not. -/
theorem update_frame (db : DB) (id : Int) (field new_value : String)
    (hf : field ∈ allowedUpdateFields)
    (hnd : (db.rows.map (fun e => e.id)).Nodup) :
    (update_expense db id field new_value).2.rows =
      db.rows.map (fun e => if (e.id : Int) = id then setField e field new_value else e) ∧
    (update_expense db id field new_value).2.seq = db.seq ∧
    (∀ e ∈ db.rows, (e.id : Int) ≠ id → e ∈ (update_expense db id field new_value).2.rows) ∧
    ((∃ e ∈ db.rows, (e.id : Int) = id) →
      (update_expense db id field new_value).1 = UpdOut.success 1) ∧
    ((¬∃ e ∈ db.rows, (e.id : Int) = id) →
      (update_expense db id field new_value).1 = UpdOut.success 0) ∧
    (∀ e : Expense,
      (setField e field new_value).id = e.id ∧
      (field = "date" → (setField e field new_value).date = new_value) ∧
      (field ≠ "date" → (setField e field new_value).date = e.date) ∧
      (field = "category" → (setField e field new_value).category = new_value) ∧
      (field ≠ "category" → (setField e field new_value).category = e.category) ∧
      (field = "amount" →
        (setField e field new_value).amount = applyRealAffinity new_value) ∧
      (field ≠ "amount" → (setField e field new_value).amount = e.amount) ∧
      (field = "subcategory" →
        (setField e field new_value).subcategory = new_value) ∧
      (field ≠ "subcategory" →
        (setField e field new_value).subcategory = e.subcategory) ∧
      (field = "note" → (setField e field new_value).note = new_value) ∧
      (field ≠ "note" → (setField e field new_value).note = e.note)) := by
  unfold update_expense
  rw [if_pos hf]
  refine ⟨rfl, rfl, ?_, ?_, ?_, ?_⟩
  · intro e he hne
    exact List.mem_map.mpr ⟨e, he, by rw [if_neg hne]⟩
  · intro hex
    rw [countP_id_eq_one db.rows id hnd hex]
  · intro hnone
    rw [countP_id_eq_zero db.rows id hnone]
  · intro e
    fin_cases hf <;> refine ⟨rfl, ?_, ?_, ?_, ?_, ?_, ?_, ?_, ?_, ?_, ?_⟩ <;>
      simp [setField]

/-- Witness for C5: updating the `note` of the existing id 2 reports one
updated row, and the row with id 1 is still present. -/
theorem update_frame_witness :
    (update_expense sampleDB 2 "note" "hi").1 = UpdOut.success 1 ∧
    sampleA ∈ (update_expense sampleDB 2 "note" "hi").2.rows :=
  ⟨(update_frame sampleDB 2 "note" "hi" (by decide) (by decide)).2.2.2.1 (by decide),
   (update_frame sampleDB 2 "note" "hi" (by decide) (by decide)).2.2.1 sampleA
     (by decide) (by decide)⟩

/-- C6: `add_expense` reports success with the fresh id `seq + 1`, an id no
existing row carries; it appends exactly one row holding the given inputs
verbatim, preserves well-formedness, and a subsequent `list_expenses` over
any range containing the new date (with a limit at least the number of
in-range rows) returns that exact record. -/
theorem add_then_list (db : DB) (date : String) (amount : ℚ)
    (category subcategory note : String) (hwf : WF db) :
    (add_expense db date amount category subcategory note).1 =
      AddOut.success (db.seq + 1) ∧
    (∀ r ∈ db.rows, r.id ≠ db.seq + 1) ∧
    (add_expense db date amount category subcategory note).2.rows =
      db.rows ++ [⟨db.seq + 1, date, AVal.real amount, category, subcategory, note⟩] ∧
    WF (add_expense db date amount category subcategory note).2 ∧
    (∀ (s e : String) (limit : Int), s ≤ date → date ≤ e →
      (((add_expense db date amount category subcategory note).2.rows.filter
          (inRangeB s e)).length : Int) ≤ limit →
      (⟨db.seq + 1, date, AVal.real amount, category, subcategory, note⟩ : Expense) ∈
        list_expenses (add_expense db date amount category subcategory note).2
          s e limit) := by
  refine ⟨rfl, ?_, rfl, ⟨?_, ?_⟩, ?_⟩
  · intro r hr hid
    have h2 := hwf.1 r hr
    omega
  · intro r hr
    rcases List.mem_append.mp hr with h | h
    · exact le_trans (hwf.1 r h) (Nat.le_succ _)
    · rw [List.mem_singleton] at h
      subst h
      exact le_refl _
  · show ((db.rows ++ [(⟨db.seq + 1, date, AVal.real amount, category, subcategory,
        note⟩ : Expense)]).map (fun e => e.id)).Nodup
    rw [List.map_append, List.nodup_append]
    refine ⟨hwf.2, List.nodup_singleton _, ?_⟩
    intro a ha hb
    rw [List.map_singleton, List.mem_singleton] at hb
    subst hb
    rw [List.mem_map] at ha
    rcases ha with ⟨r, hr, hrid⟩
    have h2 := hwf.1 r hr
    dsimp only at hrid
    omega
  · intro s e limit hs he hlen
    have hmemfil : (⟨db.seq + 1, date, AVal.real amount, category, subcategory, note⟩ :
        Expense) ∈ (add_expense db date amount category subcategory note).2.rows.filter
          (inRangeB s e) := by
      apply List.mem_filter.mpr
      constructor
      · exact List.mem_append_right _ (List.mem_singleton_self _)
      · unfold inRangeB
        rw [Bool.and_eq_true]
        exact ⟨(strLeB_iff _ _).mpr hs, (strLeB_iff _ _).mpr he⟩
    have hmemsort := (List.perm_insertionSort ordExp
      ((add_expense db date amount category subcategory note).2.rows.filter
        (inRangeB s e))).mem_iff.mpr hmemfil
    unfold list_expenses
    by_cases hneg : limit < 0
    · rw [if_pos hneg]
      exact hmemsort
    · rw [if_neg hneg]
      have hlen2 : (List.insertionSort ordExp
          ((add_expense db date amount category subcategory note).2.rows.filter
            (inRangeB s e))).length ≤ limit.toNat := by
        rw [(List.perm_insertionSort ordExp _).length_eq]
        omega
      rw [List.take_of_length_le hlen2]
      exact hmemsort

/-- Witness for C6: inserting a fourth row into the sample store yields id 4
and the exact record is returned by a covering `list_expenses` call. -/
theorem add_then_list_witness :
    (add_expense sampleDB "2025-03-01" 9 "Food" "" "").1 = AddOut.success 4 ∧
    (⟨4, "2025-03-01", AVal.real 9, "Food", "", ""⟩ : Expense) ∈
      list_expenses (add_expense sampleDB "2025-03-01" 9 "Food" "" "").2
        "2025-01-01" "2025-12-31" 10 :=
  ⟨(add_then_list sampleDB "2025-03-01" 9 "Food" "" "" (by constructor <;> decide)).1,
   (add_then_list sampleDB "2025-03-01" 9 "Food" "" ""
      (by constructor <;> decide)).2.2.2.2 "2025-01-01" "2025-12-31" 10
     ((strLeB_iff "2025-01-01" "2025-03-01").mp (by decide))
     ((strLeB_iff "2025-03-01" "2025-12-31").mp (by decide))
     (by decide)⟩

theorem nodup_all_eq_length_le_one {α : Type} (l : List α) (c : α) (hnd : l.Nodup)
    (hall : ∀ x ∈ l, x = c) : l.length ≤ 1 := by
  cases l with
  | nil => simp
  | cons a t =>
    cases t with
    | nil => simp
    | cons b u =>
      exfalso
      have ha := hall a (by simp)
      have hb := hall b (by simp)
      rw [List.nodup_cons] at hnd
      apply hnd.1
      rw [ha, ← hb]
      exact List.mem_cons_self b u

theorem summarizeRows_spec (l : List Expense) :
    ((summarizeRows l).map (fun g => g.category)).Nodup ∧
    (∀ c : String, (∃ g ∈ summarizeRows l, g.category = c) ↔ ∃ r ∈ l, r.category = c) ∧
    (∀ g ∈ summarizeRows l,
      g.total_amount = ((l.filter (fun r => decide (r.category = g.category))).map
          (fun r => amountNum r.amount)).sum ∧
      g.count = (l.filter (fun r => decide (r.category = g.category))).length) ∧
    (summarizeRows l).Pairwise (fun g h => h.total_amount ≤ g.total_amount) := by
  have hperm : List.Perm (summarizeRows l)
      (((l.map (fun r => r.category)).dedup).map (groupFor l)) :=
    List.perm_insertionSort ordGrp _
  have hcomp : ((fun g => g.category) ∘ groupFor l) = fun c => c := rfl
  refine ⟨?_, ?_, ?_, ?_⟩
  · apply (hperm.map (fun g => g.category)).nodup_iff.mpr
    rw [List.map_map, hcomp]
    simpa using List.nodup_dedup (l.map (fun r => r.category))
  · intro c
    constructor
    · rintro ⟨g, hg, hgc⟩
      obtain ⟨c2, hc2, hgc2⟩ := List.mem_map.mp (hperm.mem_iff.mp hg)
      have hcat : g.category = c2 := by rw [← hgc2]; exact rfl
      rw [hcat] at hgc
      subst hgc
      obtain ⟨r, hr, hrc⟩ := List.mem_map.mp (List.mem_dedup.mp hc2)
      exact ⟨r, hr, hrc⟩
    · rintro ⟨r, hr, hrc⟩
      have h1 : c ∈ l.map (fun r => r.category) := List.mem_map.mpr ⟨r, hr, hrc⟩
      have h2 : c ∈ (l.map (fun r => r.category)).dedup := List.mem_dedup.mpr h1
      exact ⟨groupFor l c, hperm.mem_iff.mpr (List.mem_map_of_mem _ h2), rfl⟩
  · intro g hg
    obtain ⟨c2, hc2, hgc2⟩ := List.mem_map.mp (hperm.mem_iff.mp hg)
    subst hgc2
    exact ⟨rfl, rfl⟩
  · exact (List.sorted_insertionSort ordGrp _).imp (fun h => h)

/-- C4: with no category filter, `summarize` emits exactly one group per
distinct category among the in-range rows (no duplicates, and a group exists
for a label iff some in-range row carries it), each group holding the sum of
the matching rows' amounts and their count, ordered by total descending;
with a (truthy) category filter it emits at most one group, for that
category only, with the same sum and count over the rows of that category. -/
theorem summarize_spec (db : DB) (start_date end_date : String) :
    (((summarize db start_date end_date none).map (fun g => g.category)).Nodup ∧
     (∀ c : String, (∃ g ∈ summarize db start_date end_date none, g.category = c) ↔
        (∃ r ∈ db.rows.filter (inRangeB start_date end_date), r.category = c)) ∧
     (∀ g ∈ summarize db start_date end_date none,
        g.total_amount = (((db.rows.filter (inRangeB start_date end_date)).filter
            (fun r => decide (r.category = g.category))).map
              (fun r => amountNum r.amount)).sum ∧
        g.count = ((db.rows.filter (inRangeB start_date end_date)).filter
            (fun r => decide (r.category = g.category))).length) ∧
     (summarize db start_date end_date none).Pairwise
        (fun g h => h.total_amount ≤ g.total_amount)) ∧
    (∀ c : String, c ≠ "" →
      (summarize db start_date end_date (some c)).length ≤ 1 ∧
      ∀ g ∈ summarize db start_date end_date (some c),
        g.category = c ∧
        g.total_amount = (((db.rows.filter (inRangeB start_date end_date)).filter
            (fun r => decide (r.category = c))).map (fun r => amountNum r.amount)).sum ∧
        g.count = ((db.rows.filter (inRangeB start_date end_date)).filter
            (fun r => decide (r.category = c))).length) := by
  constructor
  · exact summarizeRows_spec (db.rows.filter (inRangeB start_date end_date))
  · intro c hc
    have hsome : summarize db start_date end_date (some c) =
        summarizeRows ((db.rows.filter (inRangeB start_date end_date)).filter
          (fun r => decide (r.category = c))) := by
      simp only [summarize, applyCatFilter]
      rw [if_neg hc]
    obtain ⟨h1, h2, h3, h4⟩ := summarizeRows_spec
      ((db.rows.filter (inRangeB start_date end_date)).filter
        (fun r => decide (r.category = c)))
    rw [hsome]
    have hallcats : ∀ x ∈ (((db.rows.filter (inRangeB start_date end_date)).filter
        (fun r => decide (r.category = c))).map (fun r => r.category)).dedup, x = c := by
      intro x hx
      obtain ⟨r, hr, hrc⟩ := List.mem_map.mp (List.mem_dedup.mp hx)
      have h5 := List.of_mem_filter hr
      rw [← hrc]
      exact of_decide_eq_true h5
    constructor
    · have hlen : (summarizeRows ((db.rows.filter (inRangeB start_date end_date)).filter
          (fun r => decide (r.category = c)))).length =
          ((((db.rows.filter (inRangeB start_date end_date)).filter
            (fun r => decide (r.category = c))).map (fun r => r.category)).dedup.map
              (groupFor _)).length :=
        (List.perm_insertionSort ordGrp _).length_eq
      rw [hlen, List.length_map]
      exact nodup_all_eq_length_le_one _ c (List.nodup_dedup _) hallcats
    · intro g hg
      have hcatg : g.category = c := by
        obtain ⟨c2, hc2, hgc2⟩ := List.mem_map.mp
          ((List.perm_insertionSort ordGrp _).mem_iff.mp hg)
        rw [← hgc2]
        exact hallcats c2 hc2
      have hself : ((db.rows.filter (inRangeB start_date end_date)).filter
          (fun r => decide (r.category = c))).filter
            (fun r => decide (r.category = c)) =
          (db.rows.filter (inRangeB start_date end_date)).filter
            (fun r => decide (r.category = c)) :=
        List.filter_eq_self.mpr (fun r hr => (List.mem_filter.mp hr).2)
      obtain ⟨ht, hcnt⟩ := h3 g hg
      refine ⟨hcatg, ?_, ?_⟩
      · rw [ht, hcatg, hself]
      · rw [hcnt, hcatg, hself]

/-- Witness for C4: on the sample store the unfiltered groups carry distinct
categories and filtering by the category Food yields at most one group. -/
theorem summarize_spec_witness :
    ((summarize sampleDB "2025-01-01" "2025-12-31" none).map (fun g => g.category)).Nodup ∧
    (summarize sampleDB "2025-01-01" "2025-12-31" (some "Food")).length ≤ 1 :=
  ⟨(summarize_spec sampleDB "2025-01-01" "2025-12-31").1.1,
   ((summarize_spec sampleDB "2025-01-01" "2025-12-31").2 "Food" (by decide)).1⟩

theorem createMany_mem (inputs : List CInput) : ∀ (db : DB),
    ∀ r ∈ (createMany db inputs).1.rows, r ∈ db.rows ∨ r.id ∈ (createMany db inputs).2 := by
  induction inputs with
  | nil => intro db r hr; exact Or.inl hr
  | cons i rest ih =>
    intro db r hr
    simp only [createMany] at hr ⊢
    rcases ih _ r hr with h | h
    · rcases List.mem_append.mp h with h2 | h2
      · exact Or.inl h2
      · rw [List.mem_singleton] at h2
        right
        rw [h2]
        exact List.mem_cons_self _ _
    · exact Or.inr (List.mem_cons_of_mem _ h)

theorem removal_id_rows (d : DB) (i : Nat) :
    (removal d "id" (toString i)).2.rows =
      d.rows.filter (fun e => !decide (e.id = i)) := by
  unfold removal
  rw [if_pos (by decide : ("id" : String) ∈ allowedRemoveFields)]
  dsimp only
  apply List.filter_congr
  intro e _
  rw [matchesField_id_toString]

theorem removeIds_mem (ids : List Nat) : ∀ (d : DB), ∀ r ∈ (removeIds d ids).rows,
    r ∈ d.rows ∧ r.id ∉ ids := by
  induction ids with
  | nil => intro d r hr; exact ⟨hr, List.not_mem_nil _⟩
  | cons i t ih =>
    intro d r hr
    have hr2 : r ∈ (removeIds (removal d "id" (toString i)).2 t).rows := hr
    obtain ⟨h1, h2⟩ := ih _ r hr2
    rw [removal_id_rows] at h1
    have h3 := List.mem_filter.mp h1
    have hni : r.id ≠ i := by simpa using h3.2
    refine ⟨h3.1, ?_⟩
    intro hmem
    rcases List.mem_cons.mp hmem with h4 | h4
    · exact hni h4
    · exact h2 h4

/-- C7: starting from the empty table, inserting any sequence of records via
`add_expense` and then calling `removal "id" <id>` once for each reported id
leaves the table empty, so `list_expenses` over any range and limit returns
the empty sequence. -/
theorem create_remove_roundtrip (inputs : List CInput) :
    (removeIds (createMany emptyDB inputs).1 (createMany emptyDB inputs).2).rows = [] ∧
    ∀ (start_date end_date : String) (limit : Int),
      list_expenses (removeIds (createMany emptyDB inputs).1 (createMany emptyDB inputs).2)
        start_date end_date limit = [] := by
  have hempty :
      (removeIds (createMany emptyDB inputs).1 (createMany emptyDB inputs).2).rows = [] := by
    rw [List.eq_nil_iff_forall_not_mem]
    intro r hr
    obtain ⟨h1, h2⟩ := removeIds_mem _ _ r hr
    rcases createMany_mem inputs emptyDB r h1 with h3 | h3
    · exact List.not_mem_nil r h3
    · exact h2 h3
  refine ⟨hempty, ?_⟩
  intro s e limit
  unfold list_expenses
  rw [hempty]
  split <;> simp

end ExpenseTracker
